import Mathlib

/-!
Verification of the easy-lms-backend content/enrollment/progress stores.

Each section embeds the relevant controller and schema logic from the source
(TypeScript controllers over Mongoose models) as executable Lean definitions:
stores are lists of documents, controller calls are explicit state-passing
functions returning an HTTP-style status/message pair together with the new
store. Mongoose behaviours that decide claims are embedded explicitly:
  * schema enum validation under runValidators (update validators run on the
    paths written by the update document, before the id lookup resolves);
  * strict mode (update paths that are not schema paths are silently dropped);
  * document-level deleteOne middleware runs for doc.deleteOne() but bulk
    Model.deleteMany() bypasses document middleware entirely.
-/

/-- HTTP-style outcome of a controller call: status code plus message. -/
structure EResp where
  status : Nat
  message : String
deriving Repr, DecidableEq

/- ===== Enrollment store =====
Embeds src/src/db/models/enrollment.model.ts and the EnrollmentController
(src/unnamed/part_000 lines 9-426). -/

/-- Status strings accepted by the enrollment schema enum
(enrollment.model.ts lines 21-25: enum \x5b"pending", "active", "cancelled"\x5d). -/
def enrollmentStatusEnum : List String := ["pending", "active", "cancelled"]

/-- Schema-level enum validation for the enrollment status path. -/
def enrollmentStatusAllowed (s : String) : Bool := enrollmentStatusEnum.contains s

/-- An enrollment document as persisted by the schema: only the schema paths
user, course, amount, status exist (plus automatic timestamps, of which we keep
updatedAt). The schema declares no progress and no completedAt path. -/
structure Enrollment where
  id : Nat
  user : Nat
  course : Nat
  amount : Int
  status : String
  updatedAt : Nat
deriving Repr, DecidableEq

/-- Update document built by EnrollmentController.updateProgress
(part_000 lines 295-306): paths progress and updatedAt always, and when
progress >= 100 additionally status := "completed" and completedAt := now. -/
structure ProgressUpdateDoc where
  progress : Int
  updatedAt : Nat
  status : Option String
  completedAt : Option Nat
deriving Repr, DecidableEq

/-- Builder for the update document of updateProgress (the spread
`...(progress >= 100 && \x7b status, completedAt \x7d)` in the source). -/
def mkProgressUpdateDoc (progress : Int) (now : Nat) : ProgressUpdateDoc :=
  { progress := progress
    updatedAt := now
    status := if progress ≥ 100 then some "completed" else none
    completedAt := if progress ≥ 100 then some now else none }

/-- Mongoose update validation under runValidators: the enum validator runs on
the status path whenever the update document writes it. -/
def validateProgressUpdate (u : ProgressUpdateDoc) : Bool :=
  match u.status with
  | some s => enrollmentStatusAllowed s
  | none => true

/-- Mongoose applies an update in strict mode (the schema default): the
progress and completedAt paths are not declared by the enrollment schema and
are silently dropped; the schema paths status and updatedAt are written. -/
def applyProgressUpdate (e : Enrollment) (u : ProgressUpdateDoc) : Enrollment :=
  { e with updatedAt := u.updatedAt, status := u.status.getD e.status }

/-- EnrollmentController.updateProgress (part_000 lines 284-326): reject
progress outside 0..100 with a 400; then findByIdAndUpdate with
runValidators, where a failing enum validator surfaces as the catch-all 500
(the update is rejected before touching the store), an absent id gives 404,
and otherwise the update document is applied to the matching document. -/
def updateProgress (db : List Enrollment) (eid : Nat) (progress : Int) (now : Nat) :
    EResp × List Enrollment :=
  if progress < 0 ∨ progress > 100 then
    (⟨400, "Progress must be between 0 and 100"⟩, db)
  else
    let u := mkProgressUpdateDoc progress now
    if validateProgressUpdate u then
      match db.find? (fun e => e.id == eid) with
      | none => (⟨404, "Enrollment not found"⟩, db)
      | some _ =>
        (⟨200, "Progress updated successfully"⟩,
          db.map (fun e => if e.id == eid then applyProgressUpdate e u else e))
    else
      (⟨500, "Failed to update progress"⟩, db)

/-- Course document as needed by enrollment creation. -/
structure ECourse where
  id : Nat
  price : Int
deriving Repr, DecidableEq

/-- Combined store for enrollment creation. -/
structure EnrollDb where
  courses : List ECourse
  enrollments : List Enrollment
deriving Repr, DecidableEq

/-- EnrollmentController.create (part_000 lines 11-90): 404 when the course is
absent, 400 "already enrolled" when an enrollment for the (user, course) pair
exists, otherwise a new enrollment with amount snapshotted from course.price
and status "active" is inserted. -/
def enrollCreate (db : EnrollDb) (userId courseId newId now : Nat) : EResp × EnrollDb :=
  match db.courses.find? (fun c => c.id == courseId) with
  | none => (⟨404, "Course not found"⟩, db)
  | some course =>
    if db.enrollments.any (fun e => e.user == userId && e.course == courseId) then
      (⟨400, "User is already enrolled in this course"⟩, db)
    else
      (⟨201, "Enrollment created successfully"⟩,
        { db with enrollments := db.enrollments ++
            [⟨newId, userId, courseId, course.price, "active", now⟩] })

/-- Fixed sample store: one enrollment, status "active". -/
def sampleEnrollDb : List Enrollment := [⟨1, 10, 20, 49, "active", 0⟩]

/-- C1: updateProgress does reject values outside 0..100 with a validation
error, but when progress reaches 100 the code does NOT set status=completed
with a completion timestamp: the update document carries status "completed",
which the enrollment schema enum (pending/active/cancelled) rejects under
runValidators, so the call fails with the catch-all 500 and the store is
unchanged. Evaluated at the failing input progress = 100 on a store holding
one active enrollment; the out-of-range inputs 101 and -1 are also evaluated,
confirming the rejection half of the claim. -/
theorem updateProgress_at100_fails :
    updateProgress sampleEnrollDb 1 100 7 =
      (⟨500, "Failed to update progress"⟩, sampleEnrollDb) ∧
    updateProgress sampleEnrollDb 1 101 7 =
      (⟨400, "Progress must be between 0 and 100"⟩, sampleEnrollDb) ∧
    updateProgress sampleEnrollDb 1 (-1) 7 =
      (⟨400, "Progress must be between 0 and 100"⟩, sampleEnrollDb) ∧
    updateProgress sampleEnrollDb 1 50 7 =
      (⟨200, "Progress updated successfully"⟩, [⟨1, 10, 20, 49, "active", 7⟩]) := by
  refine ⟨?_, ?_, ?_, ?_⟩ <;> decide

/-- C2: the enrollment schema status enum accepts exactly the three values
pending, active, cancelled; the value completed, which the spec lists and
which the controllers themselves write and query, is rejected by schema
validation. -/
theorem enrollmentStatus_completed_rejected :
    enrollmentStatusAllowed "completed" = false ∧
    enrollmentStatusAllowed "pending" = true ∧
    enrollmentStatusAllowed "active" = true ∧
    enrollmentStatusAllowed "cancelled" = true ∧
    enrollmentStatusEnum.length = 3 := by
  decide

/-- C5 counterexample: a (user, course) pair with an existing enrollment whose
course record is absent (course deletion does not cascade to enrollments), on
which a second enroll call answers 404 "Course not found" rather than the
conflict error: the course-existence check runs before the duplicate check. -/
def orphanEnrollDb : EnrollDb := { courses := [], enrollments := [⟨1, 1, 2, 10, "active", 0⟩] }

/-- C5 (counterexample): with an existing enrollment for (user 1, course 2)
but no course record 2, the second enroll call fails with 404, not with the
conflict error, refuting the claim as universally stated. -/
theorem enrollCreate_orphan_not_conflict :
    enrollCreate orphanEnrollDb 1 2 9 9 = (⟨404, "Course not found"⟩, orphanEnrollDb) ∧
    (⟨404, "Course not found"⟩ : EResp) ≠ ⟨400, "User is already enrolled in this course"⟩ := by
  decide

/-- C5 (amended): for every (user, course) pair that already has an enrollment
record, a second enroll call leaves the store unchanged and creates no second
row; it fails with the conflict error whenever the course record still exists,
and with a not-found error when the course record is absent. -/
theorem enrollCreate_duplicate_conflict (db : EnrollDb) (u c nid now : Nat)
    (hdup : db.enrollments.any (fun e => e.user == u && e.course == c) = true) :
    (enrollCreate db u c nid now).2 = db ∧
    (∀ course, db.courses.find? (fun x => x.id == c) = some course →
      (enrollCreate db u c nid now).1 = ⟨400, "User is already enrolled in this course"⟩) ∧
    (db.courses.find? (fun x => x.id == c) = none →
      (enrollCreate db u c nid now).1 = ⟨404, "Course not found"⟩) := by
  unfold enrollCreate
  cases hfind : db.courses.find? (fun x => x.id == c) with
  | none =>
    refine ⟨rfl, ?_, fun _ => rfl⟩
    intro course hcourse
    exact absurd hcourse (by simp)
  | some course =>
    rw [hdup]
    refine ⟨rfl, fun _ _ => rfl, ?_⟩
    intro hnone
    exact absurd hnone (by simp)

/-- Concrete store for the C5 witness: course 2 exists and user 1 is already
enrolled in it. -/
def dupEnrollDb : EnrollDb :=
  { courses := [⟨2, 10⟩], enrollments := [⟨1, 1, 2, 10, "active", 0⟩] }

/-- C5 witness: the amended duplicate-enrollment theorem applied at a concrete
store in which course 2 exists and (user 1, course 2) is already enrolled. -/
theorem enrollCreate_duplicate_conflict_witness :
    (enrollCreate dupEnrollDb 1 2 9 9).2 = dupEnrollDb ∧
    (enrollCreate dupEnrollDb 1 2 9 9).1 = ⟨400, "User is already enrolled in this course"⟩ := by
  have h := enrollCreate_duplicate_conflict dupEnrollDb 1 2 9 9 (by decide)
  exact ⟨h.1, h.2.1 ⟨2, 10⟩ (by decide)⟩

/- ===== Chapter positions =====
Embeds the chapter documents of one fixed course, as manipulated by
ChapterController.create (chapter.controller.ts lines 8-55: position :=
count of existing chapters of the course + 1) and ChapterController.delete
(lines 106-144: delete, then re-fetch the remaining chapters of the course
ordered by position and rewrite position := index + 1 sequentially). Both
operations touch only chapter documents filtered by this course id, so the
projection to a single course is exact; the lesson cascade and the course
chapter-array pull performed by delete do not touch positions and are
modelled with the full cascade state further below. -/

/-- Chapter document of the fixed course: id and 1-based position. -/
structure Chap where
  id : Nat
  position : Nat
deriving Repr, DecidableEq

/-- ChapterController.create: the new chapter is saved with
position = countDocuments of the course + 1. -/
def chapterCreate (db : List Chap) (newId : Nat) : List Chap :=
  db ++ [⟨newId, db.length + 1⟩]

/-- Sequential renumber loop of ChapterController.delete: the i-th remaining
chapter (0-based, ordered by position) is rewritten to position i + 1. -/
def renumberFrom : Nat → List Chap → List Chap
  | _, [] => []
  | i, c :: cs => { c with position := i } :: renumberFrom (i + 1) cs

/-- ChapterController.delete restricted to positions: 404 when the id is
absent (store unchanged); otherwise the chapter is removed and the remaining
chapters of the course, sorted by position, are renumbered 1, 2, ... -/
def chapterDelete (db : List Chap) (cid : Nat) : List Chap :=
  match db.find? (fun c => c.id == cid) with
  | none => db
  | some _ =>
    renumberFrom 1 ((db.filter (fun c => c.id != cid)).insertionSort
      (fun a b => a.position ≤ b.position))

/-- Sequential chapter history entries: a creation (with the fresh id) or a
deletion request for an id. -/
inductive ChapOp where
  | create (newId : Nat)
  | del (cid : Nat)

/-- Apply one history entry. -/
def applyChapOp (db : List Chap) : ChapOp → List Chap
  | .create nid => chapterCreate db nid
  | .del cid => chapterDelete db cid

/-- Run a chapter create/delete history from a given store. -/
def runChapOps : List ChapOp → List Chap → List Chap
  | [], db => db
  | op :: ops, db => runChapOps ops (applyChapOp db op)

/-- Position invariant: the positions of the course's chapters are exactly
the contiguous block 1..N, N the number of chapters. -/
def chapPosInv (db : List Chap) : Prop :=
  (db.map Chap.position).Perm (List.range' 1 db.length)

theorem renumberFrom_map_position (i : Nat) (l : List Chap) :
    (renumberFrom i l).map Chap.position = List.range' i l.length := by
  induction l generalizing i with
  | nil => rfl
  | cons c cs ih => simp [renumberFrom, List.range'_succ, ih]

theorem renumberFrom_length (i : Nat) (l : List Chap) :
    (renumberFrom i l).length = l.length := by
  induction l generalizing i with
  | nil => rfl
  | cons c cs ih => simp [renumberFrom, ih]

theorem chapPosInv_create (db : List Chap) (nid : Nat) (h : chapPosInv db) :
    chapPosInv (chapterCreate db nid) := by
  unfold chapPosInv chapterCreate
  simp only [List.map_append, List.length_append, List.map_cons, List.map_nil,
    List.length_cons, List.length_nil]
  have hconcat : List.range' 1 (db.length + 1) =
      List.range' 1 db.length ++ [db.length + 1] := by
    rw [List.range'_concat]
    simp [Nat.add_comm]
  rw [hconcat]
  exact (h.append_right [db.length + 1])

theorem chapPosInv_delete (db : List Chap) (cid : Nat) (h : chapPosInv db) :
    chapPosInv (chapterDelete db cid) := by
  unfold chapterDelete
  cases db.find? (fun c => c.id == cid) with
  | none => exact h
  | some c =>
    unfold chapPosInv
    rw [renumberFrom_map_position, renumberFrom_length]

theorem chapPosInv_run (ops : List ChapOp) (db : List Chap) (h : chapPosInv db) :
    chapPosInv (runChapOps ops db) := by
  induction ops generalizing db with
  | nil => exact h
  | cons op rest ih =>
    cases op with
    | create nid => exact ih _ (chapPosInv_create db nid h)
    | del cid => exact ih _ (chapPosInv_delete db cid h)

/-- C3: starting from a course with no chapters, after any sequence of
sequential chapter creations and deletions the positions of the course's
chapters are exactly the contiguous integers 1..N (as a multiset: no gaps, no
duplicates): creation assigns position = current chapter count + 1 and
deletion renumbers the remaining chapters, sorted by position, to index + 1. -/
theorem chapterPositions_contiguous (ops : List ChapOp) :
    ((runChapOps ops []).map Chap.position).Perm
      (List.range' 1 (runChapOps ops []).length) :=
  chapPosInv_run ops [] (by simp [chapPosInv])

/- ===== Lesson positions =====
Embeds LessonController (src/unnamed/part_001 lines 6-142): lesson documents
with chapter reference and position, plus the chapter lessons arrays touched
by the reference pull. -/

/-- Lesson document: id, owning chapter, 1-based position. -/
structure Les where
  id : Nat
  chapter : Nat
  position : Nat
deriving Repr, DecidableEq

/-- Chapter document as needed by lesson deletion: id and lessons array. -/
structure ChapDocL where
  id : Nat
  lessons : List Nat
deriving Repr, DecidableEq

/-- Store for lesson deletion. -/
structure LesState where
  chapters : List ChapDocL
  lessons : List Les
deriving Repr, DecidableEq

/-- Document transformation of the single conditional bulk update
Lesson.updateMany(\x7bchapter, position: \x7b$gt: deletedPosition\x7d\x7d,
\x7b$inc: \x7bposition: -1\x7d\x7d): decrement the position of every lesson of
the chapter whose position exceeds the deleted position, leave all others
untouched. -/
def shiftSibling (chapterId p : Nat) (m : Les) : Les :=
  if m.chapter == chapterId && decide (p < m.position) then
    { m with position := m.position - 1 }
  else m

/-- LessonController.delete (part_001 lines 106-142): 404 when the id is
absent (store unchanged); otherwise capture chapter id and position of the
lesson, pull the lesson id from its chapter's lessons array, delete the
lesson document, then apply the one conditional bulk update above. -/
def lessonDeleteRun (st : LesState) (lid : Nat) : LesState :=
  match st.lessons.find? (fun l => l.id == lid) with
  | none => st
  | some l =>
    let chapters1 := st.chapters.map (fun ch =>
      if ch.id == l.chapter then
        { ch with lessons := ch.lessons.filter (fun x => x != lid) }
      else ch)
    let lessons1 := st.lessons.filter (fun m => m.id != lid)
    { chapters := chapters1, lessons := lessons1.map (shiftSibling l.chapter l.position) }

/-- C4: deleting the lesson at position p of a chapter decrements by exactly 1
the position of every remaining sibling lesson whose position was greater
than p (the effect of the single conditional bulk update), and leaves every
sibling whose position was less than p unchanged. -/
theorem lessonDelete_shift (st : LesState) (lid : Nat) (l : Les)
    (hfind : st.lessons.find? (fun x => x.id == lid) = some l) :
    ∀ m ∈ st.lessons, m.id ≠ lid → m.chapter = l.chapter →
      ((l.position < m.position →
          ({ m with position := m.position - 1 } : Les) ∈ (lessonDeleteRun st lid).lessons) ∧
       (m.position < l.position → m ∈ (lessonDeleteRun st lid).lessons)) := by
  intro m hm hne hch
  have hres : (lessonDeleteRun st lid).lessons =
      (st.lessons.filter (fun x => x.id != lid)).map (shiftSibling l.chapter l.position) := by
    unfold lessonDeleteRun
    rw [hfind]
  have hmem : m ∈ st.lessons.filter (fun x => x.id != lid) := by
    rw [List.mem_filter]
    exact ⟨hm, by simpa [bne_iff_ne] using hne⟩
  rw [hres]
  constructor
  · intro hlt
    have hval : shiftSibling l.chapter l.position m = { m with position := m.position - 1 } := by
      unfold shiftSibling
      simp [hch, hlt]
    have := List.mem_map_of_mem (shiftSibling l.chapter l.position) hmem
    rwa [hval] at this
  · intro hlt
    have hnot : ¬ l.position < m.position := Nat.lt_asymm hlt
    have hval : shiftSibling l.chapter l.position m = m := by
      unfold shiftSibling
      simp [hnot]
    have := List.mem_map_of_mem (shiftSibling l.chapter l.position) hmem
    rwa [hval] at this

/-- Concrete store for the C4 witness: chapter 7 with lessons at
positions 1, 2, 3. -/
def lesSample : LesState :=
  { chapters := [⟨7, [1, 2, 3]⟩]
    lessons := [⟨1, 7, 1⟩, ⟨2, 7, 2⟩, ⟨3, 7, 3⟩] }

/-- C4 witness: deleting lesson 2 (position 2) of chapter 7 moves lesson 3 to
position 2 and leaves lesson 1 at position 1, by the shift theorem applied at
the concrete store. -/
theorem lessonDelete_shift_witness :
    ({ id := 3, chapter := 7, position := 2 } : Les) ∈ (lessonDeleteRun lesSample 2).lessons ∧
    ({ id := 1, chapter := 7, position := 1 } : Les) ∈ (lessonDeleteRun lesSample 2).lessons := by
  have h := lessonDelete_shift lesSample 2 ⟨2, 7, 2⟩ (by decide)
  refine ⟨?_, ?_⟩
  · exact (h ⟨3, 7, 3⟩ (by decide) (by decide) (by decide)).1 (by decide)
  · exact (h ⟨1, 7, 1⟩ (by decide) (by decide) (by decide)).2 (by decide)

/- ===== Cascade state: courses, chapters, lessons, progress =====
Embeds CourseController.delete (course.controllers.ts lines 222-253 plus the
course pre deleteOne document hook, course.model.ts lines 130-146),
ChapterController.delete (chapter.controller.ts lines 106-144 plus the
chapter pre deleteOne hook), LessonController.delete (part_001 lines 106-142
plus the lesson pre deleteOne hook, lesson.model.ts lines 112-129, which also
runs LessonProgress.deleteMany for the deleted lesson). Bulk
Model.deleteMany calls run no document middleware, so they are embedded as
plain filters that touch only their own collection. External s3 media
deletion is best-effort and outside the store; it is elided. -/

/-- Course document for the cascade. -/
structure CCourse where
  id : Nat
  fileKey : Option String
deriving Repr, DecidableEq

/-- Chapter document for the cascade. -/
structure CChap where
  id : Nat
  course : Nat
  position : Nat
deriving Repr, DecidableEq

/-- Lesson document for the cascade. -/
structure CLes where
  id : Nat
  chapter : Nat
  position : Nat
deriving Repr, DecidableEq

/-- LessonProgress document. -/
structure CProg where
  id : Nat
  user : Nat
  lesson : Nat
  completed : Bool
deriving Repr, DecidableEq

/-- Whole store. -/
structure CState where
  courses : List CCourse
  chapters : List CChap
  lessons : List CLes
  progress : List CProg
deriving Repr, DecidableEq

/-- Child-deletion phase of CourseController.delete: for each chapter of the
course delete its lessons via Lesson.deleteMany (per-chapter inside the loop,
jointly one filter over the lesson collection), then
Chapter.deleteMany removes the chapters; no document middleware runs for
either deleteMany, so the progress collection is untouched. -/
def courseDeleteChildren (st : CState) (cid : Nat) : CState :=
  let chs := st.chapters.filter (fun ch => ch.course == cid)
  let lessons1 := st.lessons.filter (fun l => !(chs.any (fun ch => ch.id == l.chapter)))
  let chapters1 := st.chapters.filter (fun ch => ch.course != cid)
  { st with lessons := lessons1, chapters := chapters1 }

/-- CourseController.delete: 404 when the course is absent (store unchanged);
otherwise the child-deletion phase runs to completion, then course.deleteOne()
fires the course pre deleteOne hook (which re-queries the — by now empty —
chapter set of the course and re-runs the two deleteMany calls) and removes
the course document. -/
def courseDeleteRun (st : CState) (cid : Nat) : CState :=
  match st.courses.find? (fun c => c.id == cid) with
  | none => st
  | some _ =>
    let mid := courseDeleteChildren st cid
    let chs2 := mid.chapters.filter (fun ch => ch.course == cid)
    let lessons2 := mid.lessons.filter (fun l => !(chs2.any (fun ch => ch.id == l.chapter)))
    let chapters2 := mid.chapters.filter (fun ch => ch.course != cid)
    { courses := mid.courses.filter (fun c => c.id != cid)
      chapters := chapters2
      lessons := lessons2
      progress := mid.progress }

/-- Renumber loop of ChapterController.delete on the cascade chapter type. -/
def renumberChapFrom : Nat → List CChap → List CChap
  | _, [] => []
  | i, c :: cs => { c with position := i } :: renumberChapFrom (i + 1) cs

/-- ChapterController.delete on the cascade store: 404 when absent; otherwise
Lesson.deleteMany for the chapter (bulk, no document middleware), the course
chapter-array pull (array not part of this store), chapter.deleteOne() whose
hook repeats the lesson deleteMany and the pull, then the remaining chapters
of the course are re-fetched by position and renumbered. The progress
collection is never touched. -/
def chapterDeleteCascade (st : CState) (chid : Nat) : CState :=
  match st.chapters.find? (fun ch => ch.id == chid) with
  | none => st
  | some ch =>
    let lessons1 := st.lessons.filter (fun l => l.chapter != chid)
    let lessons2 := lessons1.filter (fun l => l.chapter != chid)
    let chapters1 := st.chapters.filter (fun c => c.id != chid)
    let mine := chapters1.filter (fun c => c.course == ch.course)
    let others := chapters1.filter (fun c => c.course != ch.course)
    { st with
      chapters := others ++ renumberChapFrom 1
        (mine.insertionSort (fun a b => a.position ≤ b.position))
      lessons := lessons2 }

/-- LessonController.delete on the cascade store: 404 when absent; otherwise
the chapter-array pull, then lesson.deleteOne() fires the lesson document
hook — which also runs LessonProgress.deleteMany for this lesson — and
finally the conditional bulk position update over the remaining siblings. -/
def lessonDeleteCascade (st : CState) (lid : Nat) : CState :=
  match st.lessons.find? (fun l => l.id == lid) with
  | none => st
  | some l =>
    let progress1 := st.progress.filter (fun p => p.lesson != lid)
    let lessons1 := (st.lessons.filter (fun m => m.id != lid)).map
      (fun m => if m.chapter == l.chapter && decide (l.position < m.position) then
          { m with position := m.position - 1 } else m)
    { st with lessons := lessons1, progress := progress1 }

/-- C6: deleting a course removes every chapter of that course and every
lesson belonging to those chapters: in the intermediate state reached when
the child-deletion phase has completed — before the course record itself is
deleted, which indeed still holds the course — no chapter references the
course and no lesson references any of its chapters, and the same holds in
the final state, where additionally the course record is gone. -/
theorem courseDelete_cascades (st : CState) (cid : Nat) (c : CCourse)
    (hfind : st.courses.find? (fun x => x.id == cid) = some c) :
    (∀ ch ∈ (courseDeleteChildren st cid).chapters, ch.course ≠ cid) ∧
    (∀ l ∈ (courseDeleteChildren st cid).lessons,
      ∀ ch ∈ st.chapters, ch.course = cid → l.chapter ≠ ch.id) ∧
    c ∈ (courseDeleteChildren st cid).courses ∧
    (∀ ch ∈ (courseDeleteRun st cid).chapters, ch.course ≠ cid) ∧
    (∀ l ∈ (courseDeleteRun st cid).lessons,
      ∀ ch ∈ st.chapters, ch.course = cid → l.chapter ≠ ch.id) ∧
    (∀ x ∈ (courseDeleteRun st cid).courses, x.id ≠ cid) := by
  have hmidch : ∀ ch ∈ (courseDeleteChildren st cid).chapters, ch.course ≠ cid := by
    intro ch hch
    have := (List.mem_filter.mp hch).2
    simpa [bne_iff_ne] using this
  have hmidles : ∀ l ∈ (courseDeleteChildren st cid).lessons,
      ∀ ch ∈ st.chapters, ch.course = cid → l.chapter ≠ ch.id := by
    intro l hl ch hch hcourse heq
    have hpred := (List.mem_filter.mp hl).2
    have hchs : ch ∈ st.chapters.filter (fun x => x.course == cid) := by
      rw [List.mem_filter]
      exact ⟨hch, by simp [hcourse]⟩
    have : (st.chapters.filter (fun x => x.course == cid)).any
        (fun x => x.id == l.chapter) = true := by
      rw [List.any_eq_true]
      exact ⟨ch, hchs, by simp [heq]⟩
    rw [this] at hpred
    simp at hpred
  have hrun : courseDeleteRun st cid =
      { courses := (courseDeleteChildren st cid).courses.filter (fun x => x.id != cid)
        chapters := ((courseDeleteChildren st cid).chapters.filter
          (fun ch => ch.course != cid))
        lessons := ((courseDeleteChildren st cid).lessons.filter (fun l =>
          !(((courseDeleteChildren st cid).chapters.filter
            (fun ch => ch.course == cid)).any (fun ch => ch.id == l.chapter))))
        progress := (courseDeleteChildren st cid).progress } := by
    unfold courseDeleteRun
    rw [hfind]
  refine ⟨hmidch, hmidles, ?_, ?_, ?_, ?_⟩
  · exact List.mem_of_find?_eq_some hfind
  · intro ch hch
    rw [hrun] at hch
    exact hmidch ch (List.mem_filter.mp hch).1
  · intro l hl
    rw [hrun] at hl
    exact hmidles l (List.mem_filter.mp hl).1
  · intro x hx
    rw [hrun] at hx
    have := (List.mem_filter.mp hx).2
    simpa [bne_iff_ne] using this

/-- Concrete store for the cascade witnesses: course 1 with chapter 10,
lesson 100 in that chapter, and one progress row for that lesson. -/
def cSample : CState :=
  { courses := [⟨1, none⟩]
    chapters := [⟨10, 1, 1⟩]
    lessons := [⟨100, 10, 1⟩]
    progress := [⟨500, 42, 100, true⟩] }

/-- C6 witness: the cascade theorem applied at the concrete store shows the
chapter, the lesson and the course record are all gone after deleting
course 1. -/
theorem courseDelete_cascades_witness :
    (⟨10, 1, 1⟩ : CChap) ∉ (courseDeleteRun cSample 1).chapters ∧
    (⟨100, 10, 1⟩ : CLes) ∉ (courseDeleteRun cSample 1).lessons ∧
    (⟨1, none⟩ : CCourse) ∉ (courseDeleteRun cSample 1).courses := by
  have h := courseDelete_cascades cSample 1 ⟨1, none⟩ (by decide)
  refine ⟨?_, ?_, ?_⟩
  · exact fun hmem => h.2.2.2.1 _ hmem rfl
  · exact fun hmem => h.2.2.2.2.1 _ hmem ⟨10, 1, 1⟩ (by decide) rfl rfl
  · exact fun hmem => h.2.2.2.2.2 _ hmem rfl

/-- C10: deleting a single lesson goes through the per-document deleteOne
hook and therefore removes that lesson's LessonProgress rows, while course
and chapter deletion remove their lessons with bulk deleteMany calls that
bypass document middleware: the progress collection is exactly unchanged by
both, so after a course deletion the progress rows of the deleted lessons
are still in the store, referencing lesson ids that no longer exist. -/
theorem progressRows_survive_bulk_delete :
    (∀ st lid l, st.lessons.find? (fun x => x.id == lid) = some l →
      ∀ p ∈ (lessonDeleteCascade st lid).progress, p.lesson ≠ lid) ∧
    (∀ st cid, (courseDeleteRun st cid).progress = st.progress) ∧
    (∀ st chid, (chapterDeleteCascade st chid).progress = st.progress) ∧
    (∀ st cid c, st.courses.find? (fun x => x.id == cid) = some c →
      ∀ ch ∈ st.chapters, ch.course = cid →
      ∀ l ∈ st.lessons, l.chapter = ch.id →
      ∀ p ∈ st.progress, p.lesson = l.id →
        p ∈ (courseDeleteRun st cid).progress ∧
        l ∉ (courseDeleteRun st cid).lessons) := by
  have hcourse : ∀ st cid, (courseDeleteRun st cid).progress = st.progress := by
    intro st cid
    unfold courseDeleteRun
    cases st.courses.find? (fun c => c.id == cid) with
    | none => rfl
    | some c => rfl
  refine ⟨?_, hcourse, ?_, ?_⟩
  · intro st lid l hfind p hp hlid
    have hres : (lessonDeleteCascade st lid).progress =
        st.progress.filter (fun q => q.lesson != lid) := by
      unfold lessonDeleteCascade
      rw [hfind]
    rw [hres] at hp
    have := (List.mem_filter.mp hp).2
    simp [bne_iff_ne] at this
    exact this hlid
  · intro st chid
    unfold chapterDeleteCascade
    cases st.chapters.find? (fun ch => ch.id == chid) with
    | none => rfl
    | some ch => rfl
  · intro st cid c hfind ch hch hchc l hl hlch p hp hpl
    refine ⟨by rw [hcourse]; exact hp, ?_⟩
    intro hmem
    have hrun : (courseDeleteRun st cid).lessons =
        ((courseDeleteChildren st cid).lessons.filter (fun x =>
          !(((courseDeleteChildren st cid).chapters.filter
            (fun y => y.course == cid)).any (fun y => y.id == x.chapter)))) := by
      unfold courseDeleteRun
      rw [hfind]
    rw [hrun] at hmem
    have hmid : l ∈ (courseDeleteChildren st cid).lessons := (List.mem_filter.mp hmem).1
    have hpred := (List.mem_filter.mp hmid).2
    have hchs : ch ∈ st.chapters.filter (fun x => x.course == cid) := by
      rw [List.mem_filter]
      exact ⟨hch, by simp [hchc]⟩
    have hany : (st.chapters.filter (fun x => x.course == cid)).any
        (fun x => x.id == l.chapter) = true := by
      rw [List.any_eq_true]
      exact ⟨ch, hchs, by simp [hlch]⟩
    rw [hany] at hpred
    simp at hpred

/-- C10 witness: at the concrete store, deleting course 1 leaves the progress
row for lesson 100 in place while lesson 100 itself is gone, and deleting
lesson 100 directly removes the row. -/
theorem progressRows_survive_bulk_delete_witness :
    (⟨500, 42, 100, true⟩ : CProg) ∈ (courseDeleteRun cSample 1).progress ∧
    (⟨100, 10, 1⟩ : CLes) ∉ (courseDeleteRun cSample 1).lessons ∧
    (⟨500, 42, 100, true⟩ : CProg) ∉ (lessonDeleteCascade cSample 100).progress := by
  have h := progressRows_survive_bulk_delete
  have h4 := h.2.2.2 cSample 1 ⟨1, none⟩ (by decide) ⟨10, 1, 1⟩ (by decide) rfl
    ⟨100, 10, 1⟩ (by decide) rfl ⟨500, 42, 100, true⟩ (by decide) rfl
  exact ⟨h4.1, h4.2, fun hmem => h.1 cSample 100 ⟨100, 10, 1⟩ (by decide) _ hmem rfl⟩

/- ===== Progress rollups =====
Embeds LessonProgressController.getChapterProgress (part_001 lines 269-334)
and the overall stats of getCourseProgress (lines 337-437). Numbers are
modelled as exact rationals; Math.round on the non-negative values involved
is round half up, which is Mathlib round. -/

/-- Result stats of a rollup. -/
structure RollupStats where
  totalLessons : Nat
  completedLessons : Nat
  completionPercentage : Int
deriving Repr, DecidableEq

/-- Percentage computation shared verbatim by both rollups:
totalLessons > 0 ? Math.round(completedLessons / totalLessons * 100) : 0. -/
def rollupPct (completed total : Nat) : Int :=
  if 0 < total then round (((completed : ℚ) / (total : ℚ)) * 100) else 0

/-- Chapter-scope rollup: the chapter's lessons sorted by position, the
user's progress rows restricted to those lessons, counts, and the guarded
percentage. -/
def getChapterProgressStats (lessons : List CLes) (progress : List CProg)
    (userId chapterId : Nat) : RollupStats :=
  let ls := (lessons.filter (fun l => l.chapter == chapterId)).insertionSort
      (fun a b => a.position ≤ b.position)
  let lessonIds := ls.map (fun l => l.id)
  let progressRecords := progress.filter
      (fun p => p.user == userId && lessonIds.contains p.lesson)
  { totalLessons := ls.length
    completedLessons := (progressRecords.filter (fun p => p.completed)).length
    completionPercentage :=
      rollupPct (progressRecords.filter (fun p => p.completed)).length ls.length }

/-- Course-scope rollup (overall stats of getCourseProgress): the course's
chapters sorted by position, their lessons sorted by chapter then position,
the user's progress rows restricted to those lessons, counts, and the same
guarded percentage. -/
def getCourseProgressStats (chapters : List CChap) (lessons : List CLes)
    (progress : List CProg) (userId courseId : Nat) : RollupStats :=
  let chs := (chapters.filter (fun ch => ch.course == courseId)).insertionSort
      (fun a b => a.position ≤ b.position)
  let chapterIds := chs.map (fun ch => ch.id)
  let ls := (lessons.filter (fun l => chapterIds.contains l.chapter)).insertionSort
      (fun a b => a.chapter < b.chapter ∨ (a.chapter = b.chapter ∧ a.position ≤ b.position))
  let lessonIds := ls.map (fun l => l.id)
  let progressRecords := progress.filter
      (fun p => p.user == userId && lessonIds.contains p.lesson)
  { totalLessons := ls.length
    completedLessons := (progressRecords.filter (fun p => p.completed)).length
    completionPercentage :=
      rollupPct (progressRecords.filter (fun p => p.completed)).length ls.length }

/-- C7: for both rollup scopes, a scope containing zero lessons yields a
completion percentage of exactly 0 (the total > 0 guard prevents the division
entirely), and a non-empty scope yields round(100 * completedCount /
totalCount). -/
theorem rollupPct_zero_guard (lessons : List CLes) (chapters : List CChap)
    (progress : List CProg) (userId chapterId courseId : Nat) :
    ((getChapterProgressStats lessons progress userId chapterId).totalLessons = 0 →
      (getChapterProgressStats lessons progress userId chapterId).completionPercentage = 0) ∧
    (0 < (getChapterProgressStats lessons progress userId chapterId).totalLessons →
      (getChapterProgressStats lessons progress userId chapterId).completionPercentage =
        round ((100 *
          ((getChapterProgressStats lessons progress userId chapterId).completedLessons : ℚ)) /
          ((getChapterProgressStats lessons progress userId chapterId).totalLessons : ℚ))) ∧
    ((getCourseProgressStats chapters lessons progress userId courseId).totalLessons = 0 →
      (getCourseProgressStats chapters lessons progress userId courseId).completionPercentage = 0) ∧
    (0 < (getCourseProgressStats chapters lessons progress userId courseId).totalLessons →
      (getCourseProgressStats chapters lessons progress userId courseId).completionPercentage =
        round ((100 *
          ((getCourseProgressStats chapters lessons progress userId courseId).completedLessons : ℚ)) /
          ((getCourseProgressStats chapters lessons progress userId courseId).totalLessons : ℚ))) := by
  have hpct0 : ∀ c t : Nat, t = 0 → rollupPct c t = 0 := by
    intro c t ht
    simp [rollupPct, ht]
  have hpct1 : ∀ c t : Nat, 0 < t →
      rollupPct c t = round ((100 * (c : ℚ)) / (t : ℚ)) := by
    intro c t ht
    simp only [rollupPct, if_pos ht]
    ring_nf
  exact ⟨fun h => hpct0 _ _ h, fun h => hpct1 _ _ h,
    fun h => hpct0 _ _ h, fun h => hpct1 _ _ h⟩

/-- C7 witness: the guard theorem applied at an empty chapter (percentage 0)
and at a chapter with two lessons of which one is completed (percentage
round(100 * 1 / 2)). -/
theorem rollupPct_zero_guard_witness :
    (getChapterProgressStats [] [] 1 7).completionPercentage = 0 ∧
    (getCourseProgressStats [] [] [] 1 3).completionPercentage = 0 ∧
    (getChapterProgressStats [⟨1, 7, 1⟩, ⟨2, 7, 2⟩] [⟨9, 1, 1, true⟩] 1 7).completionPercentage =
      round ((100 * (1 : ℚ)) / (2 : ℚ)) := by
  have h1 := rollupPct_zero_guard [] [] [] 1 7 3
  have h2 := rollupPct_zero_guard [⟨1, 7, 1⟩, ⟨2, 7, 2⟩] [] [⟨9, 1, 1, true⟩] 1 7 3
  refine ⟨h1.1 (by decide), h1.2.2.1 (by decide), ?_⟩
  have hthis := h2.2.1 (by decide)
  have hc : (getChapterProgressStats [⟨1, 7, 1⟩, ⟨2, 7, 2⟩]
      [⟨9, 1, 1, true⟩] 1 7).completedLessons = 1 := by decide
  have ht : (getChapterProgressStats [⟨1, 7, 1⟩, ⟨2, 7, 2⟩]
      [⟨9, 1, 1, true⟩] 1 7).totalLessons = 2 := by decide
  rw [hc, ht] at hthis
  simpa using hthis

/- ===== Course listing =====
Embeds the bundled CourseController.getAll (lesson.model.ts lines 881-919):
optional status (admin only; other callers are forced to Published),
category and level equality filters, a case-insensitive free-text match
across title, description, smallDescription, category, level built as
RegExp(search.trim(), "i") — for search strings without regex
metacharacters this is exactly case-insensitive substring matching, and is
modelled as such over the characters of the strings (ASCII lowering, as
toLowerCase and the i flag agree on ASCII) — sort by createdAt descending,
skip/limit pagination, and a pagination object with total and
pages = Math.ceil(total / limit). -/

/-- Course document for the listing. -/
structure QCourse where
  id : Nat
  title : String
  description : String
  smallDescription : String
  category : String
  level : String
  status : String
  createdAt : Nat
deriving Repr, DecidableEq

/-- Query parameters of the listing call. page and limit model
parseInt(x) || default: missing, unparsable or zero values fall back to the
default (1 and 9 respectively). -/
structure ListQuery where
  page : Option Nat
  limit : Option Nat
  status : Option String
  category : Option String
  level : Option String
  search : Option String
deriving Repr, DecidableEq

/-- Effective page: parseInt(req.query.page) || 1. -/
def effPage (q : ListQuery) : Nat :=
  match q.page with
  | some (n + 1) => n + 1
  | _ => 1

/-- Effective limit: parseInt(req.query.limit) || 9. -/
def effLimit (q : ListQuery) : Nat :=
  match q.limit with
  | some (n + 1) => n + 1
  | _ => 9

/-- ASCII lowering of a character list (String.toLowerCase and the regex i
flag agree with this on ASCII). -/
def lowerList (l : List Char) : List Char := l.map Char.toLower

/-- Prefix test on character lists. -/
def charsStart : List Char → List Char → Bool
  | [], _ => true
  | _ :: _, [] => false
  | p :: ps, h :: hs => p == h && charsStart ps hs

/-- Substring test on character lists. -/
def charsSub (pat : List Char) : List Char → Bool
  | [] => pat.isEmpty
  | h :: t => charsStart pat (h :: t) || charsSub pat t

/-- Case-insensitive substring test on strings. -/
def ciContains (hay : String) (pat : List Char) : Bool :=
  charsSub (lowerList pat) (lowerList hay.data)

/-- JavaScript String.trim over the characters of a string. -/
def jsTrim (s : String) : List Char :=
  ((s.data.dropWhile Char.isWhitespace).reverse.dropWhile Char.isWhitespace).reverse

/-- $or clause of the search filter: the pattern matches one of title,
description, smallDescription, category, level. -/
def searchMatches (pat : List Char) (c : QCourse) : Bool :=
  ciContains c.title pat || ciContains c.description pat ||
  ciContains c.smallDescription pat || ciContains c.category pat ||
  ciContains c.level pat

/-- Status part of the filter: a missing session or a non-admin role forces
status Published; an admin session honours the status query when present. -/
def statusConstraint (role : Option String) (qstatus : Option String) (c : QCourse) : Bool :=
  match role with
  | some r =>
    if r = "admin" then
      match qstatus with
      | some st => c.status == st
      | none => true
    else c.status == "Published"
  | none => c.status == "Published"

/-- Complete Mongo filter built by getAll. -/
def matchesListFilter (role : Option String) (q : ListQuery) (c : QCourse) : Bool :=
  statusConstraint role q.status c &&
  (match q.category with | some v => c.category == v | none => true) &&
  (match q.level with | some v => c.level == v | none => true) &&
  (match q.search with
   | some s => if jsTrim s = [] then true else searchMatches (jsTrim s) c
   | none => true)

/-- Response of the listing: data page plus the pagination object. -/
structure ListResult where
  data : List QCourse
  page : Nat
  limit : Nat
  total : Nat
  pages : Nat
deriving Repr, DecidableEq

/-- CourseController.getAll: filter, sort by createdAt descending, skip
(page - 1) * limit, take limit, count the matching documents, and report
pages = Math.ceil(total / limit). -/
def listCourses (db : List QCourse) (role : Option String) (q : ListQuery) : ListResult :=
  let page := effPage q
  let limit := effLimit q
  let matching := db.filter (matchesListFilter role q)
  let sorted := matching.insertionSort (fun a b => b.createdAt ≤ a.createdAt)
  { data := (sorted.drop ((page - 1) * limit)).take limit
    page := page
    limit := limit
    total := matching.length
    pages := (matching.length + limit - 1) / limit }

/-- C8: every course returned by the listing satisfies the requested status
(for an admin caller), category and level filters and, when a non-blank
search string is given, matches it case-insensitively in at least one of
title, description, smallDescription, category, level; the response
paginates by dropping (page - 1) * limit of the matching courses sorted by
creation time descending and taking at most limit of them, and reports the
total count of matching courses and the page count ceil(total / limit). -/
theorem listCourses_filters (db : List QCourse) (role : Option String) (q : ListQuery) :
    (∀ c ∈ (listCourses db role q).data,
      (role = some "admin" → ∀ st, q.status = some st → c.status = st) ∧
      (∀ v, q.category = some v → c.category = v) ∧
      (∀ v, q.level = some v → c.level = v) ∧
      (∀ s, q.search = some s → jsTrim s ≠ [] → searchMatches (jsTrim s) c = true)) ∧
    (listCourses db role q).total = (db.filter (matchesListFilter role q)).length ∧
    (listCourses db role q).pages =
      ((listCourses db role q).total + (listCourses db role q).limit - 1) /
        (listCourses db role q).limit ∧
    (listCourses db role q).data.length ≤ (listCourses db role q).limit ∧
    (listCourses db role q).data =
      (((db.filter (matchesListFilter role q)).insertionSort
          (fun a b => b.createdAt ≤ a.createdAt)).drop
        (((listCourses db role q).page - 1) * (listCourses db role q).limit)).take
        (listCourses db role q).limit := by
  refine ⟨?_, rfl, rfl, ?_, rfl⟩
  · intro c hc
    have hsorted : c ∈ (db.filter (matchesListFilter role q)).insertionSort
        (fun a b => b.createdAt ≤ a.createdAt) :=
      List.drop_subset _ _ (List.take_subset _ _ hc)
    have hmatching : c ∈ db.filter (matchesListFilter role q) :=
      (List.perm_insertionSort (fun a b => b.createdAt ≤ a.createdAt) _).mem_iff.mp hsorted
    have hmatch : matchesListFilter role q c = true := (List.mem_filter.mp hmatching).2
    simp only [matchesListFilter, Bool.and_eq_true] at hmatch
    obtain ⟨⟨⟨hst, hcat⟩, hlv⟩, hse⟩ := hmatch
    refine ⟨?_, ?_, ?_, ?_⟩
    · intro hrole st hqs
      rw [hrole, hqs] at hst
      simpa [statusConstraint] using hst
    · intro v hv
      rw [hv] at hcat
      simpa using hcat
    · intro v hv
      rw [hv] at hlv
      simpa using hlv
    · intro s hs hne
      rw [hs] at hse
      simpa [if_neg hne] using hse
  · exact le_trans (le_of_eq (List.length_take _ _)) (min_le_left _ _)

/-- Concrete store and query for the C8 witness. -/
def wCourse : QCourse :=
  { id := 1, title := "Intro to Lean", description := "formal proofs here"
    smallDescription := "proofs", category := "Math", level := "Beginner"
    status := "Published", createdAt := 5 }

/-- Draft course that the status filter must exclude. -/
def wCourse2 : QCourse :=
  { id := 2, title := "Mean Lean Machine", description := "drafty"
    smallDescription := "draft", category := "Math", level := "Beginner"
    status := "Draft", createdAt := 3 }

/-- Query used by the C8 witness: admin caller, status Published, search
"LEAN" (matching case-insensitively), default page and limit. -/
def wQuery : ListQuery :=
  { page := none, limit := none, status := some "Published"
    category := some "Math", level := some "Beginner", search := some "LEAN" }

/-- C8 witness: the listing theorem applied at a concrete store and query;
the returned course is Published, in category Math at level Beginner, and
matches the search "LEAN" case-insensitively. -/
theorem listCourses_filters_witness :
    wCourse ∈ (listCourses [wCourse2, wCourse] (some "admin") wQuery).data ∧
    wCourse.status = "Published" ∧
    wCourse.category = "Math" ∧
    wCourse.level = "Beginner" ∧
    searchMatches (jsTrim "LEAN") wCourse = true := by
  have h := listCourses_filters [wCourse2, wCourse] (some "admin") wQuery
  have hmem : wCourse ∈ (listCourses [wCourse2, wCourse] (some "admin") wQuery).data := by
    decide
  have hc := h.1 wCourse hmem
  exact ⟨hmem, hc.1 rfl "Published" rfl, hc.2.1 "Math" rfl, hc.2.2.1 "Beginner" rfl,
    hc.2.2.2 "LEAN" rfl (by decide)⟩

/- ===== Course creation and slugs =====
Embeds CourseController.create (course.controllers.ts lines 12-99) together
with the slugify library call slugify(x, \x7b lower: true, strict: true \x7d)
for ASCII input (the library charmap is the identity on ASCII): characters
are mapped one by one — the replacement character "-" becomes a space, ASCII
alphanumerics and whitespace survive the default remove, strict mode then
strips everything that is not alphanumeric or whitespace — the result is
trimmed, interior whitespace runs become single "-", and the string is
lowercased. The course schema (course.model.ts lines 51-61) requires the
stored slug to be a nonempty string over lowercase letters, digits and
hyphens. -/

/-- Slug character set of the course schema pattern. -/
def isSlugChar (c : Char) : Bool := c.isLower || c.isDigit || c == '-'

/-- Per-character step of slugify (lower, strict) on ASCII: "-" becomes a
space; alphanumerics and whitespace survive; everything else is dropped. -/
def slugifyChar (c : Char) : List Char :=
  if c == '-' then [' ']
  else if c.isAlphanum || c.isWhitespace then [c]
  else []

/-- JavaScript String.trim on a character list. -/
def jsTrimList (l : List Char) : List Char :=
  ((l.dropWhile Char.isWhitespace).reverse.dropWhile Char.isWhitespace).reverse

/-- Replacement of interior whitespace runs by single "-" (the
slug.replace of whitespace-plus by the replacement); the Boolean flag
records whether a run is pending. -/
def squashWs : Bool → List Char → List Char
  | _, [] => []
  | prevWs, c :: cs =>
    if c.isWhitespace then squashWs true cs
    else if prevWs then '-' :: c :: squashWs false cs
    else c :: squashWs false cs

/-- Complete slugify (lower, strict) on ASCII input. -/
def slugifyLS (s : String) : String :=
  ⟨(squashWs false (jsTrimList ((s.data.map slugifyChar).flatten))).map Char.toLower⟩

theorem isSlugChar_toLower (c : Char) (h : c.isAlphanum = true) :
    isSlugChar (Char.toLower c) = true := by
  have hd : c.isUpper = true ∨ c.isLower = true ∨ c.isDigit = true := by
    simp only [Char.isAlphanum, Char.isAlpha, Bool.or_eq_true] at h
    tauto
  rcases hd with hup | hlow | hdig
  · simp only [Char.isUpper, ge_iff_le, Bool.and_eq_true, decide_eq_true_eq] at hup
    have hn1 : 65 ≤ c.toNat := hup.1
    have hn2 : c.toNat ≤ 90 := hup.2
    unfold Char.toLower
    rw [if_pos ⟨hn1, hn2⟩]
    have hvalid : (c.toNat + 32).isValidChar := Or.inl (by omega)
    unfold Char.ofNat
    rw [dif_pos hvalid]
    simp only [isSlugChar, Char.isLower, Bool.or_eq_true, Bool.and_eq_true, decide_eq_true_eq]
    left; left
    constructor
    · show (97 : UInt32) ≤ _
      have hle : 97 ≤ (Char.ofNatAux (c.toNat + 32) hvalid).toNat := by
        have hto : (Char.ofNatAux (c.toNat + 32) hvalid).toNat = c.toNat + 32 := rfl
        omega
      exact hle
    · show _ ≤ (122 : UInt32)
      have hle : (Char.ofNatAux (c.toNat + 32) hvalid).toNat ≤ 122 := by
        have hto : (Char.ofNatAux (c.toNat + 32) hvalid).toNat = c.toNat + 32 := rfl
        omega
      exact hle
  · simp only [Char.isLower, ge_iff_le, Bool.and_eq_true, decide_eq_true_eq] at hlow
    have hn : 97 ≤ c.toNat := hlow.1
    unfold Char.toLower
    rw [if_neg (by omega)]
    simp only [isSlugChar, Char.isLower, Bool.or_eq_true, Bool.and_eq_true, decide_eq_true_eq]
    left; left
    exact ⟨hlow.1, hlow.2⟩
  · simp only [Char.isDigit, ge_iff_le, Bool.and_eq_true, decide_eq_true_eq] at hdig
    have hn : c.toNat ≤ 57 := hdig.2
    unfold Char.toLower
    rw [if_neg (by omega)]
    simp only [isSlugChar, Char.isDigit, Bool.or_eq_true, Bool.and_eq_true, decide_eq_true_eq]
    left; right
    exact ⟨hdig.1, hdig.2⟩

theorem mem_slugifyChar (c d : Char) (h : d ∈ slugifyChar c) :
    d.isAlphanum = true ∨ d.isWhitespace = true := by
  unfold slugifyChar at h
  by_cases h1 : (c == '-') = true
  · rw [if_pos h1] at h
    simp at h
    subst h
    right
    decide
  · rw [if_neg h1] at h
    by_cases h2 : (c.isAlphanum || c.isWhitespace) = true
    · rw [if_pos h2] at h
      simp at h
      subst h
      simpa [Bool.or_eq_true] using h2
    · rw [if_neg h2] at h
      simp at h

theorem mem_jsTrimList (l : List Char) (d : Char) (h : d ∈ jsTrimList l) : d ∈ l := by
  unfold jsTrimList at h
  rw [List.mem_reverse] at h
  have h2 := (List.dropWhile_sublist (l := (l.dropWhile Char.isWhitespace).reverse)
    (p := Char.isWhitespace)).subset h
  rw [List.mem_reverse] at h2
  exact (List.dropWhile_sublist (p := Char.isWhitespace)).subset h2

theorem mem_squashWs (l : List Char) (b : Bool) (d : Char) (h : d ∈ squashWs b l) :
    d = '-' ∨ (d ∈ l ∧ d.isWhitespace = false) := by
  induction l generalizing b with
  | nil => simp [squashWs] at h
  | cons c cs ih =>
    unfold squashWs at h
    by_cases hws : c.isWhitespace = true
    · rw [if_pos hws] at h
      rcases ih true h with hd | ⟨hmem, hnws⟩
      · exact Or.inl hd
      · exact Or.inr ⟨List.mem_cons_of_mem c hmem, hnws⟩
    · rw [if_neg hws] at h
      have hcnws : c.isWhitespace = false := by
        simpa using hws
      by_cases hb : b = true
      · rw [if_pos hb] at h
        rcases List.mem_cons.mp h with hd | h2
        · exact Or.inl hd
        · rcases List.mem_cons.mp h2 with hd | h3
          · subst hd
            exact Or.inr ⟨List.mem_cons_self _ _, hcnws⟩
          · rcases ih false h3 with hd | ⟨hmem, hnws⟩
            · exact Or.inl hd
            · exact Or.inr ⟨List.mem_cons_of_mem c hmem, hnws⟩
      · rw [if_neg hb] at h
        rcases List.mem_cons.mp h with hd | h3
        · subst hd
          exact Or.inr ⟨List.mem_cons_self _ _, hcnws⟩
        · rcases ih false h3 with hd | ⟨hmem, hnws⟩
          · exact Or.inl hd
          · exact Or.inr ⟨List.mem_cons_of_mem c hmem, hnws⟩

theorem slugifyLS_chars (s : String) : (slugifyLS s).data.all isSlugChar = true := by
  rw [List.all_eq_true]
  intro d hd
  have hd2 : d ∈ (squashWs false (jsTrimList ((s.data.map slugifyChar).flatten))).map
      Char.toLower := hd
  rcases List.mem_map.mp hd2 with ⟨e, he, hde⟩
  subst hde
  rcases mem_squashWs _ _ _ he with hdash | ⟨hmem, hnws⟩
  · subst hdash
    decide
  · have hflat : e ∈ (s.data.map slugifyChar).flatten := mem_jsTrimList _ _ hmem
    rcases List.mem_flatten.mp hflat with ⟨lc, hlc, helc⟩
    rcases List.mem_map.mp hlc with ⟨c, hc, hlc2⟩
    subst hlc2
    rcases mem_slugifyChar c e helc with halnum | hws
    · exact isSlugChar_toLower e halnum
    · rw [hws] at hnws
      exact absurd hnws (by simp)

/-- Stored course document as far as creation and slugs are concerned. -/
structure SCourse where
  id : Nat
  title : String
  slug : String
  price : Int
deriving Repr, DecidableEq

/-- Request attributes of createCourse that decide the slug (level, category
and status do not participate in slug derivation and are omitted). -/
structure CourseAttrs where
  title : String
  fileKey : String
  price : Int
  description : String
  duration : Int
  smallDescription : String
  slugInput : Option String
  createdBy : Option Nat
deriving Repr, DecidableEq

/-- Candidate slug of createCourse: slugify of the explicit slug input when
present, otherwise slugify of the title (both lower and strict). -/
def slugCandidate (a : CourseAttrs) : String :=
  match a.slugInput with
  | some s => slugifyLS s
  | none => slugifyLS a.title

/-- Final slug: when a course with the candidate slug already exists, the
current timestamp is appended after a hyphen (the template
`-$\x7bDate.now()\x7d`), otherwise the candidate is kept. -/
def finalSlug (db : List SCourse) (a : CourseAttrs) (now : Nat) : String :=
  if db.any (fun c => c.slug == slugCandidate a) then
    slugCandidate a ++ "-" ++ toString now
  else slugCandidate a

/-- Schema validation of the slug path: required (nonempty) and matching
the pattern of lowercase letters, digits and hyphens. -/
def slugValid (s : String) : Bool := !s.data.isEmpty && s.data.all isSlugChar

/-- CourseController.create: required-field check, non-negativity check for
price and duration, slug derivation with the collision suffix, then save —
where schema validation failure surfaces as 400 Validation failed and a
duplicate-key error on the unique slug index as 400 already-exists; on
success the new document, holding the final slug, is appended. -/
def courseCreate (db : List SCourse) (a : CourseAttrs) (newId now : Nat) :
    EResp × List SCourse × Option SCourse :=
  if a.title = "" ∨ a.fileKey = "" ∨ a.description = "" ∨ a.smallDescription = "" ∨
      a.createdBy = none then
    (⟨400, "Missing required fields"⟩, db, none)
  else if a.price < 0 ∨ a.duration < 0 then
    (⟨400, "Price and duration must be positive numbers"⟩, db, none)
  else if slugValid (finalSlug db a now) then
    if db.any (fun c => c.slug == finalSlug db a now) then
      (⟨400, "Course with this slug already exists"⟩, db, none)
    else
      (⟨201, "Course created successfully"⟩,
        db ++ [⟨newId, a.title, finalSlug db a now, a.price⟩],
        some ⟨newId, a.title, finalSlug db a now, a.price⟩)
  else
    (⟨400, "Validation failed"⟩, db, none)

/-- C9: every successfully stored course carries the slug derived by slugify
(lower, strict) from the explicit slug input when present, otherwise from
the title; when the candidate collides with an existing course's slug the
current-timestamp suffix is appended, otherwise the candidate is stored
as is; and slugify output is always restricted to lowercase letters, digits
and hyphens. -/
theorem courseCreate_slug (db : List SCourse) (a : CourseAttrs) (newId now : Nat)
    (course : SCourse) (h : (courseCreate db a newId now).2.2 = some course) :
    ((db.any (fun c => c.slug == slugCandidate a) = false ∧
        course.slug = slugCandidate a) ∨
     (db.any (fun c => c.slug == slugCandidate a) = true ∧
        course.slug = slugCandidate a ++ "-" ++ toString now)) ∧
    (∀ s : String, (slugifyLS s).data.all isSlugChar = true) := by
  refine ⟨?_, fun s => slugifyLS_chars s⟩
  have hslug : course.slug = finalSlug db a now := by
    unfold courseCreate at h
    split at h
    · simp at h
    · split at h
      · simp at h
      · split at h
        · split at h
          · simp at h
          · simp at h
            rw [← h]
        · simp at h
  by_cases hcol : db.any (fun c => c.slug == slugCandidate a) = true
  · right
    refine ⟨hcol, ?_⟩
    rw [hslug]
    unfold finalSlug
    rw [if_pos hcol]
  · left
    refine ⟨by simpa using hcol, ?_⟩
    rw [hslug]
    unfold finalSlug
    rw [if_neg hcol]

/-- Attributes used by the C9 witness: no explicit slug, title My Course. -/
def wAttrs : CourseAttrs :=
  { title := "My Course", fileKey := "k", price := 10
    description := "long description!", duration := 5
    smallDescription := "sd", slugInput := none, createdBy := some 1 }

/-- C9 witness: creating a course titled My Course in an empty store derives
and stores the slug my-course, and the slugify charset fact instantiated at
the title. -/
theorem courseCreate_slug_witness :
    (courseCreate [] wAttrs 1 99).2.2 = some ⟨1, "My Course", "my-course", 10⟩ ∧
    (slugifyLS "My Course").data.all isSlugChar = true := by
  have h := courseCreate_slug [] wAttrs 1 99 ⟨1, "My Course", "my-course", 10⟩ (by decide)
  exact ⟨by decide, h.2 "My Course"⟩
